import Mathlib

/-!
Verification development for the libyang schema-compilation subsystem
(`src/schema_compile.h` and the spec of the surrounding compiler core).

The C macros and the `lysc_ctx` structure are embedded directly from the
header.  Function bodies that are only declared in the header (the
orchestrator `lys_compile`, the feature precompiler, the identity-base
resolver, the status checker and the expression-implementation checker)
are modelled from the specification text, as noted on each definition.
-/

set_option autoImplicit false

namespace Libyang

/-- Error codes of the library (`LY_ERR` in `log.h`, which is not part of
the provided sources; the subset relevant to schema compilation). -/
inductive LY_ERR where
  | LY_SUCCESS
  | LY_EMEM
  | LY_EVALID
  | LY_EDENIED
  | LY_ENOTFOUND
  deriving DecidableEq, Repr

open LY_ERR

/-! ## Schema compile flags (schema_compile.h, lines 32-39) -/

/-- Modelled from the spec: `LYS_CONFIG_W` is defined in `tree_schema.h`,
which is not among the provided sources; the spec requires the RPC input
and output options to be mutually exclusive bits under a shared mask. -/
def LYS_CONFIG_W : Nat := 0x01

/-- Modelled from the spec: `LYS_CONFIG_R` from the missing `tree_schema.h`. -/
def LYS_CONFIG_R : Nat := 0x02

/-- Modelled from the spec: `LYS_CONFIG_MASK` from the missing `tree_schema.h`. -/
def LYS_CONFIG_MASK : Nat := 0x03

/-- Internal option when compiling schema tree of RPC/action input. -/
def LYS_COMPILE_RPC_INPUT : Nat := LYS_CONFIG_W

/-- Internal option when compiling schema tree of RPC/action output. -/
def LYS_COMPILE_RPC_OUTPUT : Nat := LYS_CONFIG_R

/-- Mask for the internal RPC options. -/
def LYS_COMPILE_RPC_MASK : Nat := LYS_CONFIG_MASK

/-- Internal option when compiling schema tree of Notification. -/
def LYS_COMPILE_NOTIFICATION : Nat := 0x08

/-- Compiling (validation) of a non-instantiated grouping. -/
def LYS_COMPILE_GROUPING : Nat := 0x10

/-! ## DUP_STRING / DUP_STRING_GOTO (schema_compile.h, lines 83-85) -/

/-- The two variables the `DUP_STRING` macros may write: the destination
handle `DUP` and the return-code variable `RET`. -/
structure DupState (H : Type) where
  dup : H
  ret : LY_ERR
  deriving DecidableEq, Repr

/-- Embedding of `DUP_STRING(CTX, ORIG, DUP, RET)`:
`if (ORIG) \x7bRET = lydict_insert(CTX, ORIG, 0, &DUP);\x7d`.
The dictionary service `lydict_insert` is external and abstracted as the
function `ins` returning the error code and the interned handle. -/
def DUP_STRING {H : Type} (ins : String → LY_ERR × H) (orig : Option String)
    (st : DupState H) : DupState H :=
  match orig with
  | none => st
  | some s => { dup := (ins s).2, ret := (ins s).1 }

/-- Embedding of `DUP_STRING_GOTO(CTX, ORIG, DUP, RET, GOTO)`; the second
component records whether `LY_CHECK_GOTO` branched to the error label. -/
def DUP_STRING_GOTO {H : Type} (ins : String → LY_ERR × H) (orig : Option String)
    (st : DupState H) : DupState H × Bool :=
  match orig with
  | none => (st, false)
  | some s => ({ dup := (ins s).2, ret := (ins s).1 }, (ins s).1 ≠ LY_SUCCESS)

/-! ## COMPILE_OP_ARRAY_GOTO (schema_compile.h, lines 97-110) -/

/-- The loop of `COMPILE_OP_ARRAY_GOTO`, carried over the backing buffer
and the array count separately.  Each iteration does `LY_ARRAY_INCREMENT`
and `FUNC` writes its (possibly partial) output into the buffer slot
`ITER + __array_offset` — the next unwritten slot, independent of the
count, so every iteration appends exactly one slot.  A result of
`LY_EDENIED` then does `LY_ARRAY_DECREMENT` (the count drops back, the
written slot stays in the buffer but uncounted) and the loop continues;
any other non-success result branches to the error label; on success the
loop moves on.  The compiled array visible to the caller is the counted
prefix of the buffer, `buf.take count`. -/
def compile_op_array_loop {α β : Type} (f : α → LY_ERR × β) :
    List α → List β → Nat → LY_ERR → LY_ERR × List β × Nat
  | [], buf, count, ret0 => (ret0, buf, count)
  | a :: rest, buf, count, _ =>
    if (f a).1 = LY_EDENIED then
      compile_op_array_loop f rest (buf ++ [(f a).2]) count LY_EDENIED
    else if (f a).1 = LY_SUCCESS then
      compile_op_array_loop f rest (buf ++ [(f a).2]) (count + 1) LY_SUCCESS
    else
      ((f a).1, buf ++ [(f a).2], count + 1)

/-- Embedding of `COMPILE_OP_ARRAY_GOTO(CTX, ARRAY_P, ARRAY_C, PARENT, ITER,
FUNC, USES_STATUS, RET, GOTO)`.  A `NULL` parsed array (`none`) skips the
macro entirely; `allocOk` models the `LY_ARRAY_CREATE_GOTO` allocation,
which on failure branches to the error label with `LY_EMEM`.  The result
carries the error variable, the backing buffer and the array count; the
compiled array the caller sees is the counted prefix `buf.take count`,
initially the `arr_c.length` preexisting elements. -/
def COMPILE_OP_ARRAY_GOTO {α β : Type} (allocOk : Bool) (f : α → LY_ERR × β)
    (arr_p : Option (List α)) (arr_c : List β) (ret0 : LY_ERR) :
    LY_ERR × List β × Nat :=
  match arr_p with
  | none => (ret0, arr_c, arr_c.length)
  | some ps =>
    if allocOk then compile_op_array_loop f ps arr_c arr_c.length ret0
    else (LY_EMEM, arr_c, arr_c.length)

/-- Concrete per-element compile function for refuting the silent-skip
claim: element `1` is denied (as a node disabled by if-feature would be),
leaving `0` — the zeroed partial data — in its slot; every other element
compiles fine. -/
def cexDeniedCompile : Nat → LY_ERR × Nat :=
  fun a => if a = 1 then (LY_EDENIED, 0) else (LY_SUCCESS, a)

/-! ## The compilation context (schema_compile.h, lines 45-62) -/

/-- `LYSC_CTX_BUFSIZE` (schema_compile.h, line 60). -/
def LYSC_CTX_BUFSIZE : Nat := 4078

/-- Embedding of `struct lysc_ctx`.  Pointer-typed fields (`ctx`,
`cur_mod`, `pmod`) are abstract handles; each `struct ly_set` member is a
list of abstract object handles; the fixed `char path[LYSC_CTX_BUFSIZE]`
buffer is represented by its used portion of length `path_len`. -/
structure lysc_ctx where
  ctx : Nat
  cur_mod : Nat
  pmod : Nat
  groupings : List Nat
  xpath : List Nat
  leafrefs : List Nat
  dflts : List Nat
  tpdf_chain : List Nat
  augs : List Nat
  devs : List Nat
  uses_augs : List Nat
  uses_rfns : List Nat
  path_len : Nat
  options : Nat
  path : List Char
  deriving DecidableEq, Repr

/-- Modelled from the spec: the diagnostic-path maintenance code
(`lysc_update_path` in `schema_compile.c`) is not among the provided
sources; the spec only requires a bounded diagnostic path buffer, so an
append into the fixed `LYSC_CTX_BUFSIZE` buffer truncates at the buffer
size. -/
def lysc_path_append (c : lysc_ctx) (s : List Char) : lysc_ctx :=
  { c with
    path := (c.path ++ s).take LYSC_CTX_BUFSIZE
    path_len := ((c.path ++ s).take LYSC_CTX_BUFSIZE).length }

/-! ## Features (schema_compile.h, lines 190-222; modelled from §4.3) -/

/-- An if-feature boolean expression: AND/OR/NOT over feature names. -/
inductive IffExpr where
  | ref (name : String)
  | iand (a b : IffExpr)
  | ior (a b : IffExpr)
  | inot (a : IffExpr)
  deriving DecidableEq, Repr

/-- Evaluate an if-feature expression over an environment giving the
enabled state of every feature, by name. -/
def IffExpr.eval (env : String → Bool) : IffExpr → Bool
  | .ref n => env n
  | .iand a b => a.eval env && b.eval env
  | .ior a b => a.eval env || b.eval env
  | .inot a => !(a.eval env)

/-- A parsed feature definition (`struct lysp_feature`, not in the
provided sources; only its compiler-relevant content is modelled):
name, if-feature expressions, extension instances (abstract handles). -/
structure lysp_feature where
  name : String
  iffeatures : List IffExpr
  exts : List String
  deriving DecidableEq, Repr

/-- A (pre)compiled feature record (`struct lysc_feature`).  In the
precompiled lifecycle state `iffeatures` and `exts` are empty and
`enabled` is false; finishing compilation fills them in place. -/
structure lysc_feature where
  name : String
  iffeatures : List IffExpr
  exts : List String
  enabled : Bool
  deriving DecidableEq, Repr

/-- The bare precompiled record for a parsed feature: name known,
permanently disabled, no if-feature or extension data yet. -/
def precompiledOf (fp : lysp_feature) : lysc_feature :=
  { name := fp.name, iffeatures := [], exts := [], enabled := false }

/-- A feature record is in the bare precompiled state. -/
def IsPrecompiledFeature (fc : lysc_feature) : Prop :=
  fc.iffeatures = [] ∧ fc.exts = [] ∧ fc.enabled = false

instance (fc : lysc_feature) : Decidable (IsPrecompiledFeature fc) := by
  unfold IsPrecompiledFeature; infer_instance

/-- Modelled from the spec: the body of `lys_feature_precompile`
(`schema_compile.c`) is not among the provided sources.  Creates one bare
precompiled record per parsed feature and appends them to the
caller-supplied, possibly already populated array (§4.3, header doc at
schema_compile.h:190-212). -/
def lys_feature_precompile (features_p : List lysp_feature)
    (features : List lysc_feature) : List lysc_feature :=
  features ++ features_p.map precompiledOf

/-- Finishing one feature record in place: the if-feature expressions and
extensions are filled from the parsed definition of the same name and the
if-feature expressions are evaluated over `env`, the enabled state of the
other features; a record with no parsed counterpart is left as it is. -/
def finishEntry (features_p : List lysp_feature) (env : String → Bool)
    (fc : lysc_feature) : lysc_feature :=
  match features_p.find? (fun fp => fp.name = fc.name) with
  | none => fc
  | some fp =>
    { name := fc.name, iffeatures := fp.iffeatures, exts := fp.exts,
      enabled := fp.iffeatures.all (IffExpr.eval env) }

/-- Modelled from the spec: the body of `lys_feature_precompile_finish`
(`schema_compile.c`) is not among the provided sources.  Finishing reuses
the precompiled records, mutating each one in place (preserving its
identity, modelled as its position) via `finishEntry` (§4.3). -/
def lys_feature_precompile_finish (features_p : List lysp_feature)
    (features : List lysc_feature) (env : String → Bool) : List lysc_feature :=
  features.map (finishEntry features_p env)

/-- Reverting one feature record in place: if-feature and extension data
discarded, enabled state reset to disabled, the name kept. -/
def revertEntry (fc : lysc_feature) : lysc_feature :=
  { name := fc.name, iffeatures := [], exts := [], enabled := false }

/-- Modelled from the spec: the body of `lys_feature_precompile_revert`
(`schema_compile.c`) is not among the provided sources.  Restores every
feature of the module to the bare precompiled state in place — if-feature
and extension data discarded, enabled reset to false — without
reallocating the records (§4.3, header doc at schema_compile.h:214-222). -/
def lys_feature_precompile_revert (features : List lysc_feature) : List lysc_feature :=
  features.map revertEntry

/-! ## Status-compatibility check (schema_compile.h, lines 224-241;
modelled from §4.5) -/

/-- Lifecycle status of a definition, totally ordered
`current < deprecated < obsolete`. -/
inductive Status where
  | current
  | deprecated
  | obsolete
  deriving DecidableEq, Repr

/-- Numeric rank realizing the total order on statuses. -/
def Status.rank : Status → Nat
  | .current => 0
  | .deprecated => 1
  | .obsolete => 2

/-- The validation failure produced by the status check: it names both
constructs and carries their statuses. -/
structure StatusViolation where
  name1 : String
  status1 : Status
  name2 : String
  status2 : Status
  deriving DecidableEq, Repr

/-- Modelled from the spec: the body of `lysc_check_status`
(`schema_compile.c`) is not among the provided sources.  §4.5: the
referencing construct's status must be less-or-equal to the referenced
construct's status when both live in the same defining
module-equivalence, and a current-status construct may not reference a
deprecated/obsolete one from a different module-equivalence; a violation
is a validation failure naming both constructs and their statuses. -/
def lysc_check_status (status1 : Status) (mod1 : Nat) (name1 : String)
    (status2 : Status) (mod2 : Nat) (name2 : String) :
    Except StatusViolation Unit :=
  if mod1 = mod2 then
    if status1.rank ≤ status2.rank then .ok ()
    else .error ⟨name1, status1, name2, status2⟩
  else
    if status1 = .current ∧ status2 ≠ .current then
      .error ⟨name1, status1, name2, status2⟩
    else .ok ()

/-! ## Expression-implementation check (schema_compile.h, lines 243-257;
modelled from §4.6) -/

/-- A module as seen by the expression-implementation check: its name and
whether it is implemented. -/
structure ExprModule where
  name : String
  implemented : Bool
  deriving DecidableEq, Repr

/-- Force one module of the store to become implemented. -/
def lys_implement (store : List ExprModule) (mname : String) : List ExprModule :=
  store.map fun m => if m.name = mname then { m with implemented := true } else m

/-- Modelled from the spec: the body of `lys_compile_expr_implement`
(`schema_compile.c`) is not among the provided sources.  §4.6: walk every
prefix used in the expression and resolve the referenced module (the
prefix-resolution format and data are abstracted into `resolve`, the
expression into its list of used prefixes).  With `implement` set, every
non-implemented referenced module is forced to become implemented; with
it unset, the first non-implemented module found is returned in `mod_p`
without modification.  An unresolvable prefix is a validation failure. -/
def lys_compile_expr_implement (store : List ExprModule)
    (resolve : String → Option String) (pfxs : List String)
    (implement : Bool) : LY_ERR × Option String × List ExprModule :=
  match pfxs with
  | [] => (LY_SUCCESS, none, store)
  | p :: rest =>
    match resolve p with
    | none => (LY_EVALID, none, store)
    | some mname =>
      match store.find? (fun m => m.name = mname) with
      | none => (LY_EVALID, none, store)
      | some m =>
        if m.implemented then
          lys_compile_expr_implement store resolve rest implement
        else if implement then
          lys_compile_expr_implement (lys_implement store mname) resolve rest implement
        else
          (LY_SUCCESS, some mname, store)

/-- The first prefix of the expression whose referenced module is not
implemented, resolved to that module's name (specification-side
description of `mod_p` for the non-forcing mode). -/
def firstNonImplemented (store : List ExprModule)
    (resolve : String → Option String) : List String → Option String
  | [] => none
  | p :: rest =>
    match resolve p with
    | none => none
    | some mname =>
      match store.find? (fun m => m.name = mname) with
      | none => none
      | some m =>
        if m.implemented then firstNonImplemented store resolve rest
        else some mname

/-- The module of the given name, as resolved by the store lookup the
checker performs, is implemented. -/
def moduleImplemented (s : List ExprModule) (x : String) : Prop :=
  ∃ m, s.find? (fun m => m.name = x) = some m ∧ m.implemented = true

/-! ## Identity base resolution (schema_compile.h, lines 156-188;
modelled from §4.2) -/

/-- A module as seen by the orchestrator (`struct lys_module`): its
parsed feature definitions, its (pre)compiled features, and the published
compiled tree (`lys_module#compiled`, an abstract handle). -/
structure lys_module where
  features_p : List lysp_feature
  features : List lysc_feature
  compiled : Option Nat
  deriving DecidableEq, Repr

/-- The outcomes of the collaborator phases the orchestrator drives, in
§4.7 order: identity precompilation, feature precompilation, node-tree
compilation (the external Node Compiler over every top-level statement),
and the deferred-resolution drain; `tree` is the compiled tree built when
everything succeeds. -/
structure CompileOutcomes where
  precompile_ids : LY_ERR
  precompile_feats : LY_ERR
  node_tree : LY_ERR
  deferred : LY_ERR
  tree : Nat
  deriving DecidableEq, Repr

/-- Revert of a failed compile: the partially built compiled tree is
discarded and the features are restored to the precompiled state. -/
def lys_module_revert (m : lys_module) : lys_module :=
  { m with compiled := none,
           features := lys_feature_precompile_revert m.features }

/-- Modelled from the spec: the body of `lys_compile` (`schema_compile.c`)
is not among the provided sources.  §4.7 state machine: precompile
identities and features; then node-tree compilation starts (features of
the implemented module are finished in place); any failure from the node
tree or from deferred resolution reverts — the partial compiled tree is
discarded and features return to the precompiled state; on success the
compiled tree is published into `lys_module#compiled`. -/
def lys_compile (m : lys_module) (_options : Nat) (oc : CompileOutcomes)
    (env : String → Bool) : LY_ERR × lys_module :=
  if oc.precompile_ids ≠ LY_SUCCESS then (oc.precompile_ids, m)
  else if oc.precompile_feats ≠ LY_SUCCESS then (oc.precompile_feats, m)
  else
    let m1 : lys_module :=
      { m with features := lys_feature_precompile_finish m.features_p m.features env }
    if oc.node_tree ≠ LY_SUCCESS then (oc.node_tree, lys_module_revert m1)
    else if oc.deferred ≠ LY_SUCCESS then (oc.deferred, lys_module_revert m1)
    else (LY_SUCCESS, { m1 with compiled := some oc.tree })

/-! ## Theorems -/

/-- C8: the recognized compile-option flags (RPC/action input, RPC/action
output, Notification, non-instantiated grouping) are pairwise-distinct
bit values; the RPC input and output flags are both contained in the
shared mask `LYS_COMPILE_RPC_MASK` (and are disjoint bits, hence mutually
exclusive via that mask), and neither the Notification flag nor the
grouping flag overlaps that mask. -/
theorem compile_flags_distinct_and_masked :
    (LYS_COMPILE_RPC_INPUT ≠ LYS_COMPILE_RPC_OUTPUT ∧
     LYS_COMPILE_RPC_INPUT ≠ LYS_COMPILE_NOTIFICATION ∧
     LYS_COMPILE_RPC_INPUT ≠ LYS_COMPILE_GROUPING ∧
     LYS_COMPILE_RPC_OUTPUT ≠ LYS_COMPILE_NOTIFICATION ∧
     LYS_COMPILE_RPC_OUTPUT ≠ LYS_COMPILE_GROUPING ∧
     LYS_COMPILE_NOTIFICATION ≠ LYS_COMPILE_GROUPING) ∧
    (LYS_COMPILE_RPC_INPUT &&& LYS_COMPILE_RPC_MASK = LYS_COMPILE_RPC_INPUT ∧
     LYS_COMPILE_RPC_OUTPUT &&& LYS_COMPILE_RPC_MASK = LYS_COMPILE_RPC_OUTPUT ∧
     LYS_COMPILE_RPC_INPUT &&& LYS_COMPILE_RPC_OUTPUT = 0) ∧
    (LYS_COMPILE_NOTIFICATION &&& LYS_COMPILE_RPC_MASK = 0 ∧
     LYS_COMPILE_GROUPING &&& LYS_COMPILE_RPC_MASK = 0) := by
  decide

/-- C10: `DUP_STRING` and `DUP_STRING_GOTO` leave both the destination
and the return-code variable completely unchanged when the source string
is absent (and `DUP_STRING_GOTO` does not branch to the error label);
when the source is present, the destination becomes the
dictionary-interned copy and the return code is the result of the
dictionary insert. -/
theorem dup_string_noop_or_intern {H : Type} (ins : String → LY_ERR × H)
    (st : DupState H) :
    (DUP_STRING ins none st = st ∧
     (DUP_STRING_GOTO ins none st).1 = st ∧
     (DUP_STRING_GOTO ins none st).2 = false) ∧
    (∀ s : String,
      (DUP_STRING ins (some s) st).dup = (ins s).2 ∧
      (DUP_STRING ins (some s) st).ret = (ins s).1 ∧
      ((DUP_STRING_GOTO ins (some s) st).1).dup = (ins s).2 ∧
      ((DUP_STRING_GOTO ins (some s) st).1).ret = (ins s).1) :=
  ⟨⟨rfl, rfl, rfl⟩, fun _ => ⟨rfl, rfl, rfl, rfl⟩⟩

/-- C9: the compilation context consists exactly of the libyang context,
the two current-module fields, the grouping-recursion stack, the eight
deferred-work collections (when/must xpath, leafrefs, incomplete
defaults, typedef chain, top-level augments, deviations, uses augments,
uses refines), the path length, the options, and the diagnostic path
buffer of fixed size `LYSC_CTX_BUFSIZE = 4078`; a path-buffer operation
never pushes `path_len` beyond that bound. -/
theorem lysc_ctx_shape :
    (LYSC_CTX_BUFSIZE = 4078) ∧
    (∀ c1 c2 : lysc_ctx,
      c1.ctx = c2.ctx → c1.cur_mod = c2.cur_mod → c1.pmod = c2.pmod →
      c1.groupings = c2.groupings → c1.xpath = c2.xpath →
      c1.leafrefs = c2.leafrefs → c1.dflts = c2.dflts →
      c1.tpdf_chain = c2.tpdf_chain → c1.augs = c2.augs →
      c1.devs = c2.devs → c1.uses_augs = c2.uses_augs →
      c1.uses_rfns = c2.uses_rfns → c1.path_len = c2.path_len →
      c1.options = c2.options → c1.path = c2.path → c1 = c2) ∧
    (∀ (c : lysc_ctx) (s : List Char),
      (lysc_path_append c s).path_len ≤ LYSC_CTX_BUFSIZE) := by
  refine ⟨rfl, ?_, ?_⟩
  · intro c1 c2 h1 h2 h3 h4 h5 h6 h7 h8 h9 h10 h11 h12 h13 h14 h15
    cases c1; cases c2
    simp_all
  · intro c s
    simp [lysc_path_append, List.length_take]

/-- Witness for the context-shape theorem at a concrete context: the
field-wise equality applies to a concrete context, and appending 5000
characters to the empty path stays within the buffer bound. -/
theorem lysc_ctx_shape_witness :
    (⟨0, 0, 0, [], [], [], [], [], [], [], [], [], 0, 0, []⟩ : lysc_ctx) =
      ⟨0, 0, 0, [], [], [], [], [], [], [], [], [], 0, 0, []⟩ ∧
    (lysc_path_append ⟨0, 0, 0, [], [], [], [], [], [], [], [], [], 0, 0, []⟩
      (List.replicate 5000 'a')).path_len ≤ LYSC_CTX_BUFSIZE :=
  ⟨lysc_ctx_shape.2.1 _ _ rfl rfl rfl rfl rfl rfl rfl rfl rfl rfl rfl rfl rfl
      rfl rfl,
   lysc_ctx_shape.2.2 _ _⟩

/-- C5: the status check succeeds exactly when the status rule holds —
the referencing construct's status is less-or-equal to the referenced
construct's status (in the order current < deprecated < obsolete) when
both are in the same defining module-equivalence, and a current-status
construct may not reference a deprecated or obsolete construct from a
different module-equivalence; any violation is a validation failure
naming both constructs and their statuses. -/
theorem lysc_check_status_spec (status1 : Status) (mod1 : Nat) (name1 : String)
    (status2 : Status) (mod2 : Nat) (name2 : String) :
    (lysc_check_status status1 mod1 name1 status2 mod2 name2 = .ok () ↔
      ((mod1 = mod2 → status1.rank ≤ status2.rank) ∧
       (mod1 ≠ mod2 → ¬(status1 = .current ∧ status2 ≠ .current)))) ∧
    (∀ e, lysc_check_status status1 mod1 name1 status2 mod2 name2 = .error e →
      e.name1 = name1 ∧ e.status1 = status1 ∧ e.name2 = name2 ∧
      e.status2 = status2) := by
  unfold lysc_check_status
  by_cases h : mod1 = mod2
  · rw [if_pos h]
    by_cases h2 : status1.rank ≤ status2.rank
    · rw [if_pos h2]
      refine ⟨⟨fun _ => ⟨fun _ => h2, fun hne => absurd h hne⟩, fun _ => rfl⟩,
        fun e he => Except.noConfusion he⟩
    · rw [if_neg h2]
      refine ⟨⟨fun he => Except.noConfusion he, fun hr => absurd (hr.1 h) h2⟩,
        fun e he => ?_⟩
      injection he with he
      rw [← he]
      exact ⟨rfl, rfl, rfl, rfl⟩
  · rw [if_neg h]
    by_cases h3 : status1 = .current ∧ status2 ≠ .current
    · rw [if_pos h3]
      refine ⟨⟨fun he => Except.noConfusion he, fun hr => absurd h3 (hr.2 h)⟩,
        fun e he => ?_⟩
      injection he with he
      rw [← he]
      exact ⟨rfl, rfl, rfl, rfl⟩
    · rw [if_neg h3]
      refine ⟨⟨fun _ => ⟨fun hm => absurd hm h, fun _ => h3⟩, fun _ => rfl⟩,
        fun e he => Except.noConfusion he⟩

/-- Witness for the status check at concrete inputs: a current construct
referencing a deprecated one in the same module-equivalence is accepted,
and the failure for the cross-module case names the referencing
construct. -/
theorem lysc_check_status_spec_witness :
    lysc_check_status Status.current 0 "n1" Status.deprecated 0 "n2" = .ok () ∧
    (⟨"n1", Status.current, "n2", Status.deprecated⟩ : StatusViolation).name1 = "n1" :=
  ⟨(lysc_check_status_spec Status.current 0 "n1" Status.deprecated 0 "n2").1.mpr
      ⟨fun _ => by decide, fun h => absurd rfl h⟩,
   ((lysc_check_status_spec Status.current 0 "n1" Status.deprecated 1 "n2").2 _
      rfl).1⟩

/-- Finishing a feature record in place preserves its name. -/
theorem finishEntry_name (features_p : List lysp_feature) (env : String → Bool)
    (fc : lysc_feature) : (finishEntry features_p env fc).name = fc.name := by
  unfold finishEntry
  split <;> rfl

/-- Reverting a finished feature record restores the bare precompiled
record of its original name. -/
theorem revertEntry_finishEntry (features_p : List lysp_feature)
    (env : String → Bool) (fc : lysc_feature) :
    revertEntry (finishEntry features_p env fc) =
      { name := fc.name, iffeatures := [], exts := [], enabled := false } := by
  unfold revertEntry
  rw [finishEntry_name]

/-- Reverting after finishing restores a list of precompiled feature
records exactly. -/
theorem revert_finish_of_precompiled (features_p : List lysp_feature)
    (features : List lysc_feature) (env : String → Bool)
    (h : ∀ fc ∈ features, IsPrecompiledFeature fc) :
    lys_feature_precompile_revert
      (lys_feature_precompile_finish features_p features env) = features := by
  unfold lys_feature_precompile_revert lys_feature_precompile_finish
  rw [List.map_map]
  have : features.map (revertEntry ∘ finishEntry features_p env) =
      features.map (fun fc => fc) := by
    apply List.map_congr_left
    intro fc hfc
    obtain ⟨hiff, hexts, hen⟩ := h fc hfc
    show revertEntry (finishEntry features_p env fc) = fc
    rw [revertEntry_finishEntry]
    cases fc
    simp_all
  rw [this, List.map_id']

/-- C2: precompilation appends, to the caller-supplied collection, one
feature record per parsed feature that is a valid if-feature target
immediately (its name is published) and disabled with no if-feature or
extension data; finishing compilation when the module becomes implemented
mutates those same records in place — the record count and the record at
every position (its name) are preserved, so references taken before the
finish step still refer to the same object; the features of a module that
is never finished stay in the bare precompiled (disabled) state. -/
theorem lys_feature_precompile_two_stage (features_p : List lysp_feature)
    (features : List lysc_feature) (env : String → Bool) :
    (lys_feature_precompile features_p features =
      features ++ features_p.map precompiledOf) ∧
    (∀ fp ∈ features_p,
      (precompiledOf fp).name = fp.name ∧
      IsPrecompiledFeature (precompiledOf fp)) ∧
    ((lys_feature_precompile_finish features_p features env).length =
      features.length) ∧
    (∀ (i : Nat) (hi : i < features.length)
      (hi' : i < (lys_feature_precompile_finish features_p features env).length),
      ((lys_feature_precompile_finish features_p features env).get ⟨i, hi'⟩).name =
        (features.get ⟨i, hi⟩).name) := by
  refine ⟨rfl, fun fp _ => ⟨rfl, rfl, rfl, rfl⟩, by
    simp [lys_feature_precompile_finish], ?_⟩
  intro i hi hi'
  simp only [lys_feature_precompile_finish, List.get_eq_getElem, List.getElem_map]
  exact finishEntry_name features_p env _

/-- Witness for the feature two-stage theorem at a concrete input: one
parsed feature precompiles to a bare disabled record, and finishing the
one-record collection keeps its length and the name at position 0. -/
theorem lys_feature_precompile_two_stage_witness :
    (lys_feature_precompile [⟨"f1", [], []⟩] [] =
      [] ++ [lysp_feature.mk "f1" [] []].map precompiledOf) ∧
    IsPrecompiledFeature (precompiledOf ⟨"f1", [], []⟩) ∧
    (lys_feature_precompile_finish [⟨"f1", [], []⟩] [precompiledOf ⟨"f1", [], []⟩]
        (fun _ => false)).length = 1 ∧
    ((lys_feature_precompile_finish [⟨"f1", [], []⟩] [precompiledOf ⟨"f1", [], []⟩]
        (fun _ => false)).get ⟨0, by decide⟩).name =
      ([precompiledOf ⟨"f1", [], []⟩].get ⟨0, by decide⟩).name := by
  have h := lys_feature_precompile_two_stage [⟨"f1", [], []⟩]
    [precompiledOf ⟨"f1", [], []⟩] (fun _ => false)
  refine ⟨(lys_feature_precompile_two_stage [⟨"f1", [], []⟩] [] (fun _ => false)).1,
    ((lys_feature_precompile_two_stage [⟨"f1", [], []⟩] [] (fun _ => false)).2.1
        ⟨"f1", [], []⟩ (by decide)).2,
    h.2.2.1, h.2.2.2 0 (by decide) (by decide)⟩

/-- C3: reverting a (even partially) finished module restores every
feature to the bare precompiled state — if-feature and extension data
discarded, enabled reset to disabled — without reallocating the records
(count and positional names preserved); re-running the finish step after
the revert yields exactly the state of the first finish run (finish after
revert is idempotent). -/
theorem lys_feature_revert_idempotent (features_p : List lysp_feature)
    (features : List lysc_feature) (env : String → Bool) :
    ((lys_feature_precompile_revert features).length = features.length) ∧
    (∀ (i : Nat) (hi : i < features.length)
      (hi' : i < (lys_feature_precompile_revert features).length),
      ((lys_feature_precompile_revert features).get ⟨i, hi'⟩).name =
        (features.get ⟨i, hi⟩).name ∧
      IsPrecompiledFeature ((lys_feature_precompile_revert features).get ⟨i, hi'⟩)) ∧
    ((∀ fc ∈ features, IsPrecompiledFeature fc) →
      lys_feature_precompile_finish features_p
        (lys_feature_precompile_revert
          (lys_feature_precompile_finish features_p features env)) env =
        lys_feature_precompile_finish features_p features env) := by
  refine ⟨by simp [lys_feature_precompile_revert], ?_, ?_⟩
  · intro i hi hi'
    simp only [lys_feature_precompile_revert, List.get_eq_getElem,
      List.getElem_map]
    exact ⟨rfl, rfl, rfl, rfl⟩
  · intro h
    rw [revert_finish_of_precompiled features_p features env h]

/-- Witness for the revert/idempotence theorem at a concrete input: a
finished one-feature module reverts to records of the original names in
the bare state, and a second finish run reproduces the first. -/
theorem lys_feature_revert_idempotent_witness :
    (lys_feature_precompile_revert
      [lysc_feature.mk "f1" [IffExpr.ref "f2"] ["e"] true]).length = 1 ∧
    IsPrecompiledFeature
      ((lys_feature_precompile_revert
        [lysc_feature.mk "f1" [IffExpr.ref "f2"] ["e"] true]).get ⟨0, by decide⟩) ∧
    lys_feature_precompile_finish [⟨"f1", [IffExpr.ref "f2"], ["e"]⟩]
      (lys_feature_precompile_revert
        (lys_feature_precompile_finish [⟨"f1", [IffExpr.ref "f2"], ["e"]⟩]
          [precompiledOf ⟨"f1", [IffExpr.ref "f2"], ["e"]⟩] (fun _ => true)))
      (fun _ => true) =
    lys_feature_precompile_finish [⟨"f1", [IffExpr.ref "f2"], ["e"]⟩]
      [precompiledOf ⟨"f1", [IffExpr.ref "f2"], ["e"]⟩] (fun _ => true) := by
  refine ⟨(lys_feature_revert_idempotent [] [⟨"f1", [IffExpr.ref "f2"], ["e"], true⟩]
      (fun _ => true)).1,
    ((lys_feature_revert_idempotent [] [⟨"f1", [IffExpr.ref "f2"], ["e"], true⟩]
      (fun _ => true)).2.1 0 (by decide) (by decide)).2,
    (lys_feature_revert_idempotent [⟨"f1", [IffExpr.ref "f2"], ["e"]⟩]
      [precompiledOf ⟨"f1", [IffExpr.ref "f2"], ["e"]⟩] (fun _ => true)).2.2
      (fun fc hfc => ?_)⟩
  rw [List.mem_singleton] at hfc
  rw [hfc]
  exact ⟨rfl, rfl, rfl⟩

/-- C1: for every module and compile-options bitmask, the compile entry
point returns `LY_SUCCESS` — and exactly then is the compiled tree
published into `lys_module#compiled` — or an error code signalling a
validation (`LY_EVALID`) or resource (`LY_EMEM`) failure; on every
failure path, in particular any failure after node-tree compilation
starts, the partial compiled state is reverted: the compiled tree stays
unpublished and the features return to their precompiled state, so no
partial state is visible to the caller. -/
theorem lys_compile_commit_or_revert (m : lys_module) (options : Nat)
    (oc : CompileOutcomes) (env : String → Bool)
    (hc : m.compiled = none)
    (hpre : ∀ fc ∈ m.features, IsPrecompiledFeature fc)
    (hids : oc.precompile_ids = LY_ERR.LY_SUCCESS ∨
      oc.precompile_ids = LY_ERR.LY_EVALID ∨ oc.precompile_ids = LY_ERR.LY_EMEM)
    (hfeats : oc.precompile_feats = LY_ERR.LY_SUCCESS ∨
      oc.precompile_feats = LY_ERR.LY_EVALID ∨ oc.precompile_feats = LY_ERR.LY_EMEM)
    (hnode : oc.node_tree = LY_ERR.LY_SUCCESS ∨
      oc.node_tree = LY_ERR.LY_EVALID ∨ oc.node_tree = LY_ERR.LY_EMEM)
    (hdefr : oc.deferred = LY_ERR.LY_SUCCESS ∨
      oc.deferred = LY_ERR.LY_EVALID ∨ oc.deferred = LY_ERR.LY_EMEM) :
    ((lys_compile m options oc env).1 = LY_ERR.LY_SUCCESS ↔
      (lys_compile m options oc env).2.compiled = some oc.tree) ∧
    ((lys_compile m options oc env).1 ≠ LY_ERR.LY_SUCCESS →
      (lys_compile m options oc env).2.compiled = none ∧
      (lys_compile m options oc env).2.features = m.features) ∧
    ((lys_compile m options oc env).1 = LY_ERR.LY_SUCCESS ∨
      (lys_compile m options oc env).1 = LY_ERR.LY_EVALID ∨
      (lys_compile m options oc env).1 = LY_ERR.LY_EMEM) := by
  unfold lys_compile
  by_cases h1 : oc.precompile_ids = LY_ERR.LY_SUCCESS
  case neg =>
    rw [if_pos h1]
    exact ⟨⟨fun hs => absurd hs h1, fun hp => by rw [hc] at hp; cases hp⟩,
      fun _ => ⟨hc, rfl⟩, hids⟩
  rw [if_neg (fun hne => hne h1)]
  by_cases h2 : oc.precompile_feats = LY_ERR.LY_SUCCESS
  case neg =>
    rw [if_pos h2]
    exact ⟨⟨fun hs => absurd hs h2, fun hp => by rw [hc] at hp; cases hp⟩,
      fun _ => ⟨hc, rfl⟩, hfeats⟩
  rw [if_neg (fun hne => hne h2)]
  have hrev : lys_feature_precompile_revert
      (lys_feature_precompile_finish m.features_p m.features env) = m.features :=
    revert_finish_of_precompiled m.features_p m.features env hpre
  by_cases h3 : oc.node_tree = LY_ERR.LY_SUCCESS
  case neg =>
    rw [if_pos h3]
    exact ⟨⟨fun hs => absurd hs h3, fun hp => by
        simp only [lys_module_revert] at hp; cases hp⟩,
      fun _ => ⟨rfl, by simp only [lys_module_revert]; exact hrev⟩, hnode⟩
  rw [if_neg (fun hne => hne h3)]
  by_cases h4 : oc.deferred = LY_ERR.LY_SUCCESS
  case neg =>
    rw [if_pos h4]
    exact ⟨⟨fun hs => absurd hs h4, fun hp => by
        simp only [lys_module_revert] at hp; cases hp⟩,
      fun _ => ⟨rfl, by simp only [lys_module_revert]; exact hrev⟩, hdefr⟩
  rw [if_neg (fun hne => hne h4)]
  exact ⟨⟨fun _ => rfl, fun _ => rfl⟩, fun hne => absurd rfl hne, Or.inl rfl⟩

/-- Witness for the orchestrator theorem: a module whose node-tree
compilation fails with a validation error ends with no published compiled
tree and its features back in the precompiled state, and the same module
with all phases succeeding publishes the tree. -/
theorem lys_compile_commit_or_revert_witness :
    ((lys_compile ⟨[⟨"f1", [], []⟩], [precompiledOf ⟨"f1", [], []⟩], none⟩ 0
        ⟨LY_ERR.LY_SUCCESS, LY_ERR.LY_SUCCESS, LY_ERR.LY_EVALID, LY_ERR.LY_SUCCESS, 7⟩
        (fun _ => false)).2.compiled = none ∧
      (lys_compile ⟨[⟨"f1", [], []⟩], [precompiledOf ⟨"f1", [], []⟩], none⟩ 0
        ⟨LY_ERR.LY_SUCCESS, LY_ERR.LY_SUCCESS, LY_ERR.LY_EVALID, LY_ERR.LY_SUCCESS, 7⟩
        (fun _ => false)).2.features = [precompiledOf ⟨"f1", [], []⟩]) ∧
    (lys_compile ⟨[⟨"f1", [], []⟩], [precompiledOf ⟨"f1", [], []⟩], none⟩ 0
        ⟨LY_ERR.LY_SUCCESS, LY_ERR.LY_SUCCESS, LY_ERR.LY_SUCCESS, LY_ERR.LY_SUCCESS, 7⟩
        (fun _ => false)).2.compiled = some 7 := by
  refine ⟨(lys_compile_commit_or_revert _ 0 _ (fun _ => false) rfl
      (fun fc hfc => ?_) (Or.inl rfl) (Or.inl rfl) (Or.inr (Or.inl rfl))
      (Or.inl rfl)).2.1 (by decide),
    (lys_compile_commit_or_revert _ 0 _ (fun _ => false) rfl
      (fun fc hfc => ?_) (Or.inl rfl) (Or.inl rfl) (Or.inl rfl)
      (Or.inl rfl)).1.mp (by decide)⟩
  · rw [List.mem_singleton] at hfc
    rw [hfc]
    exact ⟨rfl, rfl, rfl⟩
  · rw [List.mem_singleton] at hfc
    rw [hfc]
    exact ⟨rfl, rfl, rfl⟩

/-- If the array-compilation loop ends with `LY_SUCCESS`, every parsed
element either compiled successfully or was denied. -/
theorem compile_op_array_loop_success {α β : Type} (f : α → LY_ERR × β)
    (ps : List α) :
    ∀ (buf : List β) (count : Nat) (ret0 : LY_ERR),
      (compile_op_array_loop f ps buf count ret0).1 = LY_ERR.LY_SUCCESS →
      ∀ a ∈ ps, (f a).1 = LY_ERR.LY_SUCCESS ∨ (f a).1 = LY_ERR.LY_EDENIED := by
  induction ps with
  | nil =>
    intro buf count ret0 _ a ha
    cases ha
  | cons a rest ih =>
    intro buf count ret0 hret
    by_cases hd : (f a).1 = LY_ERR.LY_EDENIED
    · rw [compile_op_array_loop, if_pos hd] at hret
      intro b hb
      rcases List.mem_cons.mp hb with hb | hb
      · rw [hb]; exact Or.inr hd
      · exact ih (buf ++ [(f a).2]) count LY_ERR.LY_EDENIED hret b hb
    · by_cases hs : (f a).1 = LY_ERR.LY_SUCCESS
      · rw [compile_op_array_loop, if_neg hd, if_pos hs] at hret
        intro b hb
        rcases List.mem_cons.mp hb with hb | hb
        · rw [hb]; exact Or.inl hs
        · exact ih (buf ++ [(f a).2]) (count + 1) LY_ERR.LY_SUCCESS hret b hb
      · rw [compile_op_array_loop, if_neg hd, if_neg hs] at hret
        exact absurd hret hs

/-- If some parsed element fails with a code other than success or
denial, the array-compilation loop never reports overall success: the
failure is surfaced through the error label. -/
theorem compile_op_array_loop_err {α β : Type} (f : α → LY_ERR × β)
    (ps : List α) :
    ∀ (buf : List β) (count : Nat) (ret0 : LY_ERR),
      (∃ a ∈ ps, (f a).1 ≠ LY_ERR.LY_SUCCESS ∧ (f a).1 ≠ LY_ERR.LY_EDENIED) →
      (compile_op_array_loop f ps buf count ret0).1 ≠ LY_ERR.LY_SUCCESS := by
  induction ps with
  | nil =>
    intro buf count ret0 hex
    obtain ⟨a, ha, _⟩ := hex
    cases ha
  | cons a rest ih =>
    intro buf count ret0 hex
    by_cases hd : (f a).1 = LY_ERR.LY_EDENIED
    · rw [compile_op_array_loop, if_pos hd]
      obtain ⟨b, hb, hbs, hbd⟩ := hex
      rcases List.mem_cons.mp hb with hb | hb
      · rw [hb] at hbd; exact absurd hd hbd
      · exact ih (buf ++ [(f a).2]) count LY_ERR.LY_EDENIED ⟨b, hb, hbs, hbd⟩
    · by_cases hs : (f a).1 = LY_ERR.LY_SUCCESS
      · rw [compile_op_array_loop, if_neg hd, if_pos hs]
        obtain ⟨b, hb, hbs, hbd⟩ := hex
        rcases List.mem_cons.mp hb with hb | hb
        · rw [hb] at hbs; exact absurd hs hbs
        · exact ih (buf ++ [(f a).2]) (count + 1) LY_ERR.LY_SUCCESS ⟨b, hb, hbs, hbd⟩
      · rw [compile_op_array_loop, if_neg hd, if_neg hs]
        exact hs

/-- When every element compiles successfully, the loop writes every
compiled value at the end of the buffer and counts each one, whatever the
incoming error variable was. -/
theorem compile_op_array_loop_all_success {α β : Type} (f : α → LY_ERR × β)
    (ps : List α) :
    ∀ (buf : List β) (count : Nat) (ret0 : LY_ERR),
      (∀ a ∈ ps, (f a).1 = LY_ERR.LY_SUCCESS) →
      (compile_op_array_loop f ps buf count ret0).2 =
        (buf ++ ps.map (fun a => (f a).2), count + ps.length) := by
  induction ps with
  | nil =>
    intro buf count ret0 _
    simp [compile_op_array_loop]
  | cons a rest ih =>
    intro buf count ret0 hall
    have ha := hall a (List.mem_cons_self a rest)
    rw [compile_op_array_loop, if_neg (by rw [ha]; exact fun hc => by cases hc),
      if_pos ha,
      ih (buf ++ [(f a).2]) (count + 1) LY_ERR.LY_SUCCESS
        (fun b hb => hall b (List.mem_cons_of_mem a hb))]
    simp [List.append_assoc, Nat.add_assoc, Nat.add_comm 1]

/-- C7 (amended): every per-element compile failure other than
`LY_EDENIED` is surfaced to the caller through the error label, so an
overall `LY_SUCCESS` means every parsed element either compiled
successfully or was denied; and when no element is denied, the counted
compiled array is exactly the initial array followed by every element's
compiled value.  An `LY_EDENIED` element, however, is absorbed silently:
its slot is dropped from the count while the loop continues, so the
counted output can end up an incomplete but unflagged subset of the
parsed input. -/
theorem compile_op_array_no_silent_error (f : Nat → LY_ERR × Nat)
    (ps : List Nat) (arr_c : List Nat) (ret0 : LY_ERR) :
    ((COMPILE_OP_ARRAY_GOTO true f (some ps) arr_c ret0).1 = LY_ERR.LY_SUCCESS →
      ∀ a ∈ ps, (f a).1 = LY_ERR.LY_SUCCESS ∨ (f a).1 = LY_ERR.LY_EDENIED) ∧
    ((∃ a ∈ ps, (f a).1 ≠ LY_ERR.LY_SUCCESS ∧ (f a).1 ≠ LY_ERR.LY_EDENIED) →
      (COMPILE_OP_ARRAY_GOTO true f (some ps) arr_c ret0).1 ≠
        LY_ERR.LY_SUCCESS) ∧
    ((∀ a ∈ ps, (f a).1 = LY_ERR.LY_SUCCESS) →
      (COMPILE_OP_ARRAY_GOTO true f (some ps) arr_c ret0).2.1.take
          (COMPILE_OP_ARRAY_GOTO true f (some ps) arr_c ret0).2.2 =
        arr_c ++ ps.map fun a => (f a).2) := by
  refine ⟨fun hret => compile_op_array_loop_success f ps arr_c arr_c.length ret0 hret,
    fun hex => compile_op_array_loop_err f ps arr_c arr_c.length ret0 hex,
    fun hall => ?_⟩
  show ((compile_op_array_loop f ps arr_c arr_c.length ret0).2.1).take
      (compile_op_array_loop f ps arr_c arr_c.length ret0).2.2 =
    arr_c ++ ps.map fun a => (f a).2
  rw [compile_op_array_loop_all_success f ps arr_c arr_c.length ret0 hall]
  have hlen : arr_c.length + ps.length =
      (arr_c ++ ps.map fun a => (f a).2).length := by simp
  rw [hlen, List.take_length]

/-- Witness for the amended array-compilation theorem at concrete inputs:
an all-successful array compiles completely into the counted prefix, and
an array containing an element failing with `LY_EVALID` never reports
success. -/
theorem compile_op_array_no_silent_error_witness :
    ((COMPILE_OP_ARRAY_GOTO true (fun n => (LY_ERR.LY_SUCCESS, n)) (some [1, 2])
        [] LY_ERR.LY_SUCCESS).2.1.take
      (COMPILE_OP_ARRAY_GOTO true (fun n => (LY_ERR.LY_SUCCESS, n)) (some [1, 2])
        [] LY_ERR.LY_SUCCESS).2.2 =
      [] ++ [1, 2].map fun n => ((LY_ERR.LY_SUCCESS, n) : LY_ERR × Nat).2) ∧
    ((COMPILE_OP_ARRAY_GOTO true (fun n => (LY_ERR.LY_EVALID, n)) (some [1])
        [] LY_ERR.LY_SUCCESS).1 ≠ LY_ERR.LY_SUCCESS) :=
  ⟨(compile_op_array_no_silent_error (fun n => (LY_ERR.LY_SUCCESS, n)) [1, 2]
      [] LY_ERR.LY_SUCCESS).2.2 (by decide),
   (compile_op_array_no_silent_error (fun n => (LY_ERR.LY_EVALID, n)) [1]
      [] LY_ERR.LY_SUCCESS).2.1 (by decide)⟩

/-- C7 counterexample: with a per-element compile that denies element `1`
(as a node disabled by if-feature) and succeeds on element `2`, the macro
reports overall `LY_SUCCESS` while the array count is one of the two
parsed elements — an element failed (`LY_EDENIED` is not `LY_SUCCESS`),
yet no error is surfaced and the counted output is an incomplete,
unflagged subset of the parsed input, refuting the claim that this never
happens.  Worse, because the successful element was written at
`ITER + __array_offset` (slot 1) while the count was decremented back,
the single counted slot holds the denied element's partial data `0`, not
the compiled `2`. -/
theorem compile_op_array_silent_skip_cex :
    (cexDeniedCompile 1).1 ≠ LY_ERR.LY_SUCCESS ∧
    (COMPILE_OP_ARRAY_GOTO true cexDeniedCompile (some [1, 2]) []
      LY_ERR.LY_SUCCESS).1 = LY_ERR.LY_SUCCESS ∧
    (COMPILE_OP_ARRAY_GOTO true cexDeniedCompile (some [1, 2]) []
      LY_ERR.LY_SUCCESS).2.2 = 1 ∧
    ((COMPILE_OP_ARRAY_GOTO true cexDeniedCompile (some [1, 2]) []
        LY_ERR.LY_SUCCESS).2.1.take
      (COMPILE_OP_ARRAY_GOTO true cexDeniedCompile (some [1, 2]) []
        LY_ERR.LY_SUCCESS).2.2 = [0]) ∧
    ¬((COMPILE_OP_ARRAY_GOTO true cexDeniedCompile (some [1, 2]) []
        LY_ERR.LY_SUCCESS).1 ≠ LY_ERR.LY_SUCCESS ∨
      (COMPILE_OP_ARRAY_GOTO true cexDeniedCompile (some [1, 2]) []
        LY_ERR.LY_SUCCESS).2.2 = 2) := by
  decide
/-- Forcing one module to become implemented does not change its name. -/
theorem lys_implement_entry_name (m : ExprModule) (mn : String) :
    (if m.name = mn then { m with implemented := true } else m).name = m.name := by
  split <;> rfl

/-- Forcing one module to become implemented never changes which module
names can be resolved in the store. -/
theorem find_name_lys_implement (s : List ExprModule) (mn x : String) :
    ((lys_implement s mn).find? (fun m => m.name = x)).isSome =
      (s.find? (fun m => m.name = x)).isSome := by
  induction s with
  | nil => rfl
  | cons m rest ih =>
    simp only [lys_implement, List.map_cons]
    by_cases hx : m.name = x
    · rw [List.find?_cons_of_pos _
          (by simp only [lys_implement_entry_name, decide_eq_true_eq]; exact hx),
        List.find?_cons_of_pos _ (by simp [hx])]
      rfl
    · rw [List.find?_cons_of_neg _
          (by simp only [lys_implement_entry_name, decide_eq_true_eq]; exact hx),
        List.find?_cons_of_neg _ (by simp [hx])]
      exact ih

/-- Forcing one module to become implemented keeps every already
implemented module implemented. -/
theorem moduleImplemented_lys_implement (s : List ExprModule) (mn x : String)
    (h : moduleImplemented s x) : moduleImplemented (lys_implement s mn) x := by
  induction s with
  | nil => obtain ⟨m0, hm0, _⟩ := h; cases hm0
  | cons m rest ih =>
    obtain ⟨m0, hm0, him⟩ := h
    by_cases hx : m.name = x
    · rw [List.find?_cons_of_pos _ (by simp [hx])] at hm0
      injection hm0 with hm0
      subst hm0
      refine ⟨if m.name = mn then { m with implemented := true } else m, ?_, ?_⟩
      · simp only [lys_implement, List.map_cons]
        exact List.find?_cons_of_pos _
          (by simp only [lys_implement_entry_name, decide_eq_true_eq]; exact hx)
      · split <;> simp [him]
    · rw [List.find?_cons_of_neg _ (by simp [hx])] at hm0
      obtain ⟨m1, hm1, him1⟩ := ih ⟨m0, hm0, him⟩
      refine ⟨m1, ?_, him1⟩
      simp only [lys_implement, List.map_cons]
      rw [List.find?_cons_of_neg _
        (by simp only [lys_implement_entry_name, decide_eq_true_eq]; exact hx)]
      exact hm1

/-- After forcing a resolvable module to become implemented, that module
is implemented. -/
theorem moduleImplemented_after_implement (s : List ExprModule) (mn : String)
    (h : (s.find? (fun m => m.name = mn)).isSome) :
    moduleImplemented (lys_implement s mn) mn := by
  induction s with
  | nil => cases h
  | cons m rest ih =>
    by_cases hx : m.name = mn
    · refine ⟨{ m with implemented := true }, ?_, rfl⟩
      simp only [lys_implement, List.map_cons, if_pos hx]
      exact List.find?_cons_of_pos _ (by simp [hx])
    · rw [List.find?_cons_of_neg _ (by simp [hx])] at h
      obtain ⟨m1, hm1, him1⟩ := ih h
      refine ⟨m1, ?_, him1⟩
      simp only [lys_implement, List.map_cons, if_neg hx]
      rw [List.find?_cons_of_neg _ (by simp [hx])]
      exact hm1

/-- Unfolding of the expression-implementation walk at an unresolvable
prefix: a validation failure without modification. -/
theorem expr_implement_cons_unresolved (store : List ExprModule)
    (resolve : String → Option String) (p : String) (rest : List String)
    (b : Bool) (hr : resolve p = none) :
    lys_compile_expr_implement store resolve (p :: rest) b =
      (LY_ERR.LY_EVALID, none, store) := by
  simp [lys_compile_expr_implement, hr]

/-- Unfolding of the expression-implementation walk at a prefix resolving
to an unknown module: a validation failure without modification. -/
theorem expr_implement_cons_unknown (store : List ExprModule)
    (resolve : String → Option String) (p : String) (rest : List String)
    (b : Bool) (mn : String) (hr : resolve p = some mn)
    (hf : store.find? (fun m => m.name = mn) = none) :
    lys_compile_expr_implement store resolve (p :: rest) b =
      (LY_ERR.LY_EVALID, none, store) := by
  simp [lys_compile_expr_implement, hr, hf]

/-- Unfolding of the expression-implementation walk at a prefix resolving
to an implemented module: the walk moves on unchanged. -/
theorem expr_implement_cons_implemented (store : List ExprModule)
    (resolve : String → Option String) (p : String) (rest : List String)
    (b : Bool) (mn : String) (m : ExprModule) (hr : resolve p = some mn)
    (hf : store.find? (fun m => m.name = mn) = some m)
    (hi : m.implemented = true) :
    lys_compile_expr_implement store resolve (p :: rest) b =
      lys_compile_expr_implement store resolve rest b := by
  simp [lys_compile_expr_implement, hr, hf, hi]

/-- Unfolding of the forcing walk at a prefix resolving to a
non-implemented module: the module is forced and the walk continues. -/
theorem expr_implement_cons_force (store : List ExprModule)
    (resolve : String → Option String) (p : String) (rest : List String)
    (mn : String) (m : ExprModule) (hr : resolve p = some mn)
    (hf : store.find? (fun m => m.name = mn) = some m)
    (hi : m.implemented = false) :
    lys_compile_expr_implement store resolve (p :: rest) true =
      lys_compile_expr_implement (lys_implement store mn) resolve rest true := by
  simp [lys_compile_expr_implement, hr, hf, hi]

/-- Unfolding of the non-forcing walk at a prefix resolving to a
non-implemented module: that module is reported, the store untouched. -/
theorem expr_implement_cons_report (store : List ExprModule)
    (resolve : String → Option String) (p : String) (rest : List String)
    (mn : String) (m : ExprModule) (hr : resolve p = some mn)
    (hf : store.find? (fun m => m.name = mn) = some m)
    (hi : m.implemented = false) :
    lys_compile_expr_implement store resolve (p :: rest) false =
      (LY_ERR.LY_SUCCESS, some mn, store) := by
  simp [lys_compile_expr_implement, hr, hf, hi]

/-- Unfolding of the first-non-implemented search along a prefix list. -/
theorem firstNonImplemented_cons (store : List ExprModule)
    (resolve : String → Option String) (p : String) (rest : List String)
    (mn : String) (m : ExprModule) (hr : resolve p = some mn)
    (hf : store.find? (fun m => m.name = mn) = some m) :
    firstNonImplemented store resolve (p :: rest) =
      if m.implemented = true then firstNonImplemented store resolve rest
      else some mn := by
  simp [firstNonImplemented, hr, hf]

/-- The non-forcing expression-implementation walk never modifies the
module store. -/
theorem expr_implement_false_store (store : List ExprModule)
    (resolve : String → Option String) (pfxs : List String) :
    (lys_compile_expr_implement store resolve pfxs false).2.2 = store := by
  induction pfxs with
  | nil => rfl
  | cons p rest ih =>
    cases hr : resolve p with
    | none => rw [expr_implement_cons_unresolved store resolve p rest false hr]
    | some mn =>
      cases hf : store.find? (fun m => m.name = mn) with
      | none => rw [expr_implement_cons_unknown store resolve p rest false mn hr hf]
      | some m =>
        cases hi : m.implemented with
        | true =>
          rw [expr_implement_cons_implemented store resolve p rest false mn m hr hf hi]
          exact ih
        | false =>
          rw [expr_implement_cons_report store resolve p rest mn m hr hf hi]

/-- A forcing run of the expression-implementation walk keeps every
already implemented module implemented. -/
theorem expr_implement_true_monotone (resolve : String → Option String)
    (pfxs : List String) :
    ∀ (store : List ExprModule) (x : String), moduleImplemented store x →
      moduleImplemented (lys_compile_expr_implement store resolve pfxs true).2.2 x := by
  induction pfxs with
  | nil => intro store x h; exact h
  | cons p rest ih =>
    intro store x h
    cases hr : resolve p with
    | none => rw [expr_implement_cons_unresolved store resolve p rest true hr]; exact h
    | some mn =>
      cases hf : store.find? (fun m => m.name = mn) with
      | none =>
        rw [expr_implement_cons_unknown store resolve p rest true mn hr hf]
        exact h
      | some m =>
        cases hi : m.implemented with
        | true =>
          rw [expr_implement_cons_implemented store resolve p rest true mn m hr hf hi]
          exact ih store x h
        | false =>
          rw [expr_implement_cons_force store resolve p rest mn m hr hf hi]
          exact ih _ x (moduleImplemented_lys_implement store mn x h)

/-- The non-forcing expression-implementation walk succeeds when every
prefix resolves, and reports the first non-implemented referenced
module. -/
theorem expr_implement_false_spec (store : List ExprModule)
    (resolve : String → Option String) (pfxs : List String)
    (hall : ∀ p ∈ pfxs, ((resolve p).bind fun mn =>
      store.find? fun m => m.name = mn).isSome) :
    (lys_compile_expr_implement store resolve pfxs false).1 = LY_ERR.LY_SUCCESS ∧
    (lys_compile_expr_implement store resolve pfxs false).2.1 =
      firstNonImplemented store resolve pfxs := by
  induction pfxs with
  | nil => exact ⟨rfl, rfl⟩
  | cons p rest ih =>
    have hp := hall p (List.mem_cons_self p rest)
    cases hr : resolve p with
    | none => rw [hr] at hp; cases hp
    | some mn =>
      rw [hr] at hp
      simp only [Option.some_bind] at hp
      cases hf : store.find? (fun m => m.name = mn) with
      | none => rw [hf] at hp; cases hp
      | some m =>
        rw [firstNonImplemented_cons store resolve p rest mn m hr hf]
        cases hi : m.implemented with
        | true =>
          rw [expr_implement_cons_implemented store resolve p rest false mn m hr hf hi,
            if_pos rfl]
          exact ih fun q hq => hall q (List.mem_cons_of_mem p hq)
        | false =>
          rw [expr_implement_cons_report store resolve p rest mn m hr hf hi]
          simp

/-- The forcing expression-implementation walk succeeds when every prefix
resolves, and afterwards every module referenced by the expression is
implemented. -/
theorem expr_implement_true_spec (resolve : String → Option String)
    (pfxs : List String) :
    ∀ (store : List ExprModule),
      (∀ p ∈ pfxs, ((resolve p).bind fun mn =>
        store.find? fun m => m.name = mn).isSome) →
      (lys_compile_expr_implement store resolve pfxs true).1 = LY_ERR.LY_SUCCESS ∧
      ∀ p ∈ pfxs, ∀ mn, resolve p = some mn →
        moduleImplemented (lys_compile_expr_implement store resolve pfxs true).2.2 mn := by
  induction pfxs with
  | nil =>
    intro store _
    exact ⟨rfl, fun p hp => absurd hp (List.not_mem_nil p)⟩
  | cons p rest ih =>
    intro store hall
    have hp := hall p (List.mem_cons_self p rest)
    cases hr : resolve p with
    | none => rw [hr] at hp; cases hp
    | some mn =>
      rw [hr] at hp
      simp only [Option.some_bind] at hp
      cases hf : store.find? (fun m => m.name = mn) with
      | none => rw [hf] at hp; cases hp
      | some m =>
        cases hi : m.implemented with
        | true =>
          rw [expr_implement_cons_implemented store resolve p rest true mn m hr hf hi]
          obtain ⟨hsucc, hmods⟩ :=
            ih store fun q hq => hall q (List.mem_cons_of_mem p hq)
          refine ⟨hsucc, fun q hq mq hmq => ?_⟩
          rcases List.mem_cons.mp hq with hq | hq
          · subst hq
            rw [hmq] at hr
            injection hr with hr
            subst hr
            exact expr_implement_true_monotone resolve rest store mq ⟨m, hf, hi⟩
          · exact hmods q hq mq hmq
        | false =>
          rw [expr_implement_cons_force store resolve p rest mn m hr hf hi]
          have htrans : ∀ q ∈ rest, ((resolve q).bind fun mn' =>
              (lys_implement store mn).find? fun m' => m'.name = mn').isSome := by
            intro q hq
            have hq' := hall q (List.mem_cons_of_mem p hq)
            cases hrq : resolve q with
            | none => rw [hrq] at hq'; cases hq'
            | some mn' =>
              rw [hrq] at hq'
              simp only [Option.some_bind] at hq' ⊢
              rw [find_name_lys_implement]
              exact hq'
          obtain ⟨hsucc, hmods⟩ := ih (lys_implement store mn) htrans
          refine ⟨hsucc, fun q hq mq hmq => ?_⟩
          rcases List.mem_cons.mp hq with hq | hq
          · subst hq
            rw [hmq] at hr
            injection hr with hr
            subst hr
            exact expr_implement_true_monotone resolve rest _ mq
              (moduleImplemented_after_implement store mq hp)
          · exact hmods q hq mq hmq
/-- C6: with `implement` unset, the expression-implementation check
returns (in `mod_p`) the first non-implemented module referenced by any
prefix of the expression and leaves the module store — in particular that
module's implemented state — unmodified; with `implement` set it forces
every referenced non-implemented module to become implemented and returns
success (absent resolution errors). -/
theorem lys_compile_expr_implement_spec (store : List ExprModule)
    (resolve : String → Option String) (pfxs : List String) :
    ((lys_compile_expr_implement store resolve pfxs false).2.2 = store) ∧
    ((∀ p ∈ pfxs, ((resolve p).bind fun mn =>
        store.find? fun m => m.name = mn).isSome) →
      (lys_compile_expr_implement store resolve pfxs false).1 = LY_ERR.LY_SUCCESS ∧
      (lys_compile_expr_implement store resolve pfxs false).2.1 =
        firstNonImplemented store resolve pfxs) ∧
    ((∀ p ∈ pfxs, ((resolve p).bind fun mn =>
        store.find? fun m => m.name = mn).isSome) →
      (lys_compile_expr_implement store resolve pfxs true).1 = LY_ERR.LY_SUCCESS ∧
      ∀ p ∈ pfxs, ∀ mn, resolve p = some mn →
        moduleImplemented (lys_compile_expr_implement store resolve pfxs true).2.2 mn) :=
  ⟨expr_implement_false_store store resolve pfxs,
   fun hall => expr_implement_false_spec store resolve pfxs hall,
   fun hall => expr_implement_true_spec resolve pfxs store hall⟩

/-- Witness for the expression-implementation theorem at the concrete
scenario of the spec: two prefixes, one referencing an implemented module
`A` and one a non-implemented module `B`; the non-forcing walk returns
`B` leaving the store unchanged, the forcing walk succeeds and leaves `B`
implemented. -/
theorem lys_compile_expr_implement_spec_witness :
    ((lys_compile_expr_implement [⟨"A", true⟩, ⟨"B", false⟩]
        (fun p => if p = "p1" then some "A" else
          if p = "p2" then some "B" else none)
        ["p1", "p2"] false).2.2 = [⟨"A", true⟩, ⟨"B", false⟩]) ∧
    ((lys_compile_expr_implement [⟨"A", true⟩, ⟨"B", false⟩]
        (fun p => if p = "p1" then some "A" else
          if p = "p2" then some "B" else none)
        ["p1", "p2"] false).2.1 = some "B") ∧
    ((lys_compile_expr_implement [⟨"A", true⟩, ⟨"B", false⟩]
        (fun p => if p = "p1" then some "A" else
          if p = "p2" then some "B" else none)
        ["p1", "p2"] true).1 = LY_ERR.LY_SUCCESS) ∧
    moduleImplemented (lys_compile_expr_implement [⟨"A", true⟩, ⟨"B", false⟩]
        (fun p => if p = "p1" then some "A" else
          if p = "p2" then some "B" else none)
        ["p1", "p2"] true).2.2 "B" := by
  have h := lys_compile_expr_implement_spec [⟨"A", true⟩, ⟨"B", false⟩]
    (fun p => if p = "p1" then some "A" else if p = "p2" then some "B" else none)
    ["p1", "p2"]
  refine ⟨h.1, ?_, (h.2.2 (by decide)).1,
    (h.2.2 (by decide)).2 "p2" (by decide) "B" (by decide)⟩
  rw [(h.2.1 (by decide)).2]
  decide

end Libyang
